import Mathlib

/-!
Verification of the resumable, checkpointed fetch orchestrator of the
Twitter/X media batch downloader.

The development shallowly embeds:
* the Timeline Merge Engine (`mergeTimelines`, modelled from the spec, since
  `@/lib/fetch-state` is not among the provided sources),
* the single-account fetch loop of `handleFetch` (frontend `App.tsx`),
* the per-account loop and epilogue of `handleFetchAll`,
* the retry prologue/loop/epilogue of `handleRetryAccount`,
* the backend response assembly, error classification (`parseExtractorError`)
  and JSON extraction (`extractJSON`) of `twitter.go`.

Strings are treated at Unicode-character granularity; the Go code indexes
bytes, which coincides with characters on the ASCII inputs considered here.
-/

namespace TwitterFetch

/-- A timeline entry as exchanged between backend and frontend
(`TimelineEntry` in `twitter.go`; only the fields the orchestrator's
control flow and deduplication depend on are retained). `tweetId` is the
string form of the tweet id, `contentType` is the content type tag
(photo/video/gif/text). -/
structure TimelineEntry where
  url : String
  tweetId : String
  contentType : String
  content : String
  isRetweet : Bool
deriving DecidableEq, Repr

/-- Modelled from the spec: the Merge Engine's dedup identity is the item's
tweet id combined with its URL; for text-only entries it is the tweet id
combined with the type tag "text" (spec section 4.1; the implementation lives
in `@/lib/fetch-state`, which is not among the provided sources). -/
def entryKey (e : TimelineEntry) : String × String :=
  if e.contentType = "text" then (e.tweetId, "text") else (e.tweetId, e.url)

/-- One step of the merge: append the incoming entry unless an entry with the
same identity is already present in the accumulated sequence. -/
def mergeStep (acc : List TimelineEntry) (e : TimelineEntry) : List TimelineEntry :=
  if acc.any (fun x => decide (entryKey x = entryKey e)) then acc else acc ++ [e]

/-- Modelled from the spec: `mergeTimelines existing incoming` builds an
identity set from `existing` and appends each `incoming` entry not already
present, preserving `incoming`'s relative order (spec section 4.1; the
implementation lives in `@/lib/fetch-state`, not among the provided
sources). -/
def mergeTimelines (existing incoming : List TimelineEntry) : List TimelineEntry :=
  incoming.foldl mergeStep existing

/-- Account information as carried through the loops (`AccountInfo` in
`twitter.go`; the descriptive fields not read by the orchestrator's control
flow are summarised by the ones kept here). -/
structure AccountInfo where
  name : String
  nick : String
  profileImage : String
deriving DecidableEq, Repr

/-- Extraction metadata block of the backend response
(`ExtractMetadata` in `twitter.go`). -/
structure ExtractMetadata where
  newEntries : Nat
  page : Nat
  batchSize : Nat
  hasMore : Bool
  cursor : String
  completed : Bool
deriving DecidableEq, Repr

/-- The backend response consumed by the frontend
(`TwitterResponse` in `twitter.go`). An absent cursor is modelled as `""`,
matching both the Go zero value and the frontend's falsiness checks. -/
structure TwitterResponse where
  accountInfo : AccountInfo
  totalURLs : Nat
  timeline : List TimelineEntry
  metadata : ExtractMetadata
  cursor : String
  completed : Bool
deriving DecidableEq, Repr

/-- Response assembly at the end of `ExtractTimeline` (`twitter.go` lines
742-759): `hasMore := cliResponse.Cursor != "" && !cliResponse.Completed`,
and the response copies the CLI cursor and completed flag. The conversion of
`cliResponse.Media`/`Metadata` into `timeline` entries is orthogonal to the
claims and is taken as the already-converted `timeline` argument. -/
def mkTwitterResponse (accountInfo : AccountInfo) (timeline : List TimelineEntry)
    (reqPage reqBatchSize : Nat) (cliCursor : String) (cliCompleted : Bool) : TwitterResponse :=
  let hasMore := cliCursor != "" && !cliCompleted
  { accountInfo := accountInfo
    totalURLs := timeline.length
    timeline := timeline
    metadata := { newEntries := timeline.length, page := reqPage, batchSize := reqBatchSize,
                  hasMore := hasMore, cursor := cliCursor, completed := cliCompleted }
    cursor := cliCursor
    completed := cliCompleted }

/-- One Adapter response as consumed by the frontend loops, i.e. the parsed
`TwitterResponse` fields the loop body reads (`data.account_info`,
`data.timeline`, `data.cursor`, `data.completed`), together with the
wall-clock seconds the stubbed Adapter call takes. -/
structure Batch where
  accountInfo : AccountInfo
  timeline : List TimelineEntry
  cursor : String
  completed : Bool
  duration : Nat
deriving DecidableEq, Repr

/-- The full Session checkpoint written by `saveFetchState`
(`@/lib/fetch-state`); the fields the orchestrator reads back on resume.
The store is keyed by account; the model tracks the single key the session
under consideration uses. -/
structure FetchState where
  cursor : String
  timeline : List TimelineEntry
  accountInfo : Option AccountInfo
  completed : Bool
deriving DecidableEq, Repr

/-- The mutable state of one session of the fetch loop in `handleFetch`
(`App.tsx` lines 431-665): elapsed wall-clock seconds, the merged timeline
`allTimeline`, `accountInfo`, the current `cursor` (`""` = absent),
`hasMore`, `page` (= number of Adapter calls made), the `stopFetchRef` flag,
the Checkpoint Store content for this account (`ckpt` = full Session saved by
`saveFetchState`, `lightCursor` = the lightweight `saveCursor` slot, `""` =
absent), and a counter of full-Session checkpoint writes. -/
structure LoopState where
  elapsed : Nat
  timeline : List TimelineEntry
  accountInfo : Option AccountInfo
  cursor : String
  hasMore : Bool
  page : Nat
  stopped : Bool
  ckpt : Option FetchState
  lightCursor : String
  ckptWrites : Nat
deriving DecidableEq, Repr

/-- Fresh-fetch initial state (`App.tsx` lines 358-363 and 444-445): empty
timeline, no account info, absent cursor, `hasMore = true`, page 0, and the
full checkpoint cleared by `clearFetchState`. -/
def initState : LoopState :=
  { elapsed := 0, timeline := [], accountInfo := none, cursor := "", hasMore := true,
    page := 0, stopped := false, ckpt := none, lightCursor := "", ckptWrites := 0 }

/-- The body of one successful batch iteration of `handleFetch`
(`App.tsx` lines 515-632): merge the batch, retain first-seen account info,
update cursor and `hasMore := !!data.cursor && !data.completed`, increment
`page`, save the lightweight cursor when present, and write the full Session
checkpoint via `saveFetchState` with `completed := !hasMore`. -/
def applyBatch (b : Batch) (s : LoopState) : LoopState :=
  let merged := mergeTimelines s.timeline b.timeline
  let accountInfo := match s.accountInfo with
    | some a => some a
    | none => some b.accountInfo
  let cursor := b.cursor
  let hasMore := cursor != "" && !b.completed
  { elapsed := s.elapsed + b.duration
    timeline := merged
    accountInfo := accountInfo
    cursor := cursor
    hasMore := hasMore
    page := s.page + 1
    stopped := s.stopped
    ckpt := some { cursor := cursor, timeline := merged, accountInfo := accountInfo,
                   completed := !hasMore }
    lightCursor := if cursor != "" then cursor else s.lightCursor
    ckptWrites := s.ckptWrites + 1 }

/-- The pre-emptive timeout branch of `handleFetch` (`App.tsx` lines
451-509): set the stop flag and, when account info is known and at least one
item was merged, save the current state as a non-completed checkpoint before
breaking out of the loop. -/
def timeoutStop (s : LoopState) : LoopState :=
  if s.accountInfo.isSome && !s.timeline.isEmpty then
    { s with stopped := true
             ckpt := some { cursor := s.cursor, timeline := s.timeline,
                            accountInfo := s.accountInfo, completed := false }
             ckptWrites := s.ckptWrites + 1 }
  else
    { s with stopped := true }

/-- The fetch loop of `handleFetch` (`App.tsx` lines 449-633):
`while (hasMore && !stopFetchRef.current)`, then the pre-emptive timeout
check `elapsed >= timeoutSeconds` before issuing the next Adapter call.
`cancel n` models the value of the externally-settable `stopFetchRef` flag
as read at the top of the iteration following `n` completed calls; the stub
list supplies successive Adapter responses. -/
def fetchLoop (T : Nat) (cancel : Nat → Bool) : List Batch → LoopState → LoopState
  | [], s => s
  | b :: rest, s =>
    if s.hasMore && !(s.stopped || cancel s.page) then
      if T ≤ s.elapsed then timeoutStop s
      else fetchLoop T cancel rest (applyBatch b s)
    else { s with stopped := s.stopped || cancel s.page }

/-- The epilogue of `handleFetch` after the loop (`App.tsx` lines 635-646):
if stopped, keep the checkpoint for resume; on natural completion clear the
full checkpoint (`clearFetchState`) and the lightweight cursor
(`clearCursor`). -/
def finishSingle (s : LoopState) : LoopState :=
  if s.stopped then s
  else { s with ckpt := none, lightCursor := "" }

/-- A whole fresh single-account fetch (`handleFetch`, timeline mode).
`batchSize` is only forwarded to the Adapter request (`App.tsx` lines
515-524); the loop guard never reads it, which the theorems below make
explicit. -/
def handleFetchRun (T batchSize : Nat) (cancel : Nat → Bool) (stub : List Batch) : LoopState :=
  finishSingle (fetchLoop T cancel stub initState)

/-- A session with no user stop request: the `stopFetchRef` flag is never
set externally. -/
def noCancel : Nat → Bool := fun _ => false

/-- Total stub duration of the first `n` Adapter calls. -/
def durUpTo (stub : List Batch) (n : Nat) : Nat :=
  ((stub.take n).map Batch.duration).sum

/-- Merged timeline after the first `n` batches, starting from `init`. -/
def mergedUpTo (init : List TimelineEntry) (stub : List Batch) (n : Nat) :
    List TimelineEntry :=
  (stub.take n).foldl (fun acc b => mergeTimelines acc b.timeline) init

/-- Concrete fixtures used by witnesses and counterexamples. -/
def acctW : AccountInfo :=
  { name := "alice", nick := "Alice", profileImage := "a.png" }

def entA : TimelineEntry :=
  { url := "https://pbs.twimg.com/media/a.jpg", tweetId := "11", contentType := "photo",
    content := "", isRetweet := false }

def entB : TimelineEntry :=
  { url := "https://pbs.twimg.com/media/b.jpg", tweetId := "12", contentType := "photo",
    content := "", isRetweet := false }

def stubTimeout : List Batch :=
  [ { accountInfo := acctW, timeline := [entA], cursor := "c1", completed := false, duration := 2 },
    { accountInfo := acctW, timeline := [entB], cursor := "c2", completed := false, duration := 2 },
    { accountInfo := acctW, timeline := [], cursor := "", completed := true, duration := 1 } ]

def stubTwo : List Batch :=
  [ { accountInfo := acctW, timeline := [entA], cursor := "c1", completed := false, duration := 1 },
    { accountInfo := acctW, timeline := [entB], cursor := "", completed := true, duration := 1 } ]

/-- Status of an `AccountTask` in the multi-account scheduler
(`MultipleAccount.status` in the frontend). -/
inductive AccountStatus
  | pending
  | fetching
  | completed
  | incomplete
  | failed
deriving DecidableEq, Repr

/-- Value of a monotone asynchronous stop flag when read after `n` completed
calls: `stopAt = some k` models a flag (timer timeout or a stop button) that
is set from the `k`-th read onwards; `none` models a flag never set. -/
def flagAt (stopAt : Option Nat) (n : Nat) : Bool :=
  match stopAt with
  | none => false
  | some k => decide (k ≤ n)

/-- The body of one successful batch iteration of the per-account loop in
`handleFetchAll` (`App.tsx` lines 1081-1190): merge, first-seen account info,
cursor and `hasMore` update, `page++`, lightweight cursor save, and the full
Session checkpoint written when account info is known (`if (accountInfo)`,
line 1145), with `completed := !hasMore`. -/
def applyBatchAll (b : Batch) (s : LoopState) : LoopState :=
  let merged := mergeTimelines s.timeline b.timeline
  let accountInfo := match s.accountInfo with
    | some a => some a
    | none => some b.accountInfo
  let cursor := b.cursor
  let hasMore := cursor != "" && !b.completed
  { elapsed := s.elapsed + b.duration
    timeline := merged
    accountInfo := accountInfo
    cursor := cursor
    hasMore := hasMore
    page := s.page + 1
    stopped := s.stopped
    ckpt := if accountInfo.isSome then
        some { cursor := cursor, timeline := merged, accountInfo := accountInfo,
               completed := !hasMore }
      else s.ckpt
    lightCursor := if cursor != "" then cursor else s.lightCursor
    ckptWrites := if accountInfo.isSome then s.ckptWrites + 1 else s.ckptWrites }

/-- The per-account stop-flag branch at the top of the `handleFetchAll` loop
body (`App.tsx` lines 1032-1078): before breaking, save the current state as
a non-completed checkpoint when account info is known and items were
merged. -/
def stopFlagSave (s : LoopState) : LoopState :=
  if s.accountInfo.isSome && !s.timeline.isEmpty then
    { s with ckpt := some { cursor := s.cursor, timeline := s.timeline,
                            accountInfo := s.accountInfo, completed := false }
             ckptWrites := s.ckptWrites + 1 }
  else s

/-- The per-account loop of `handleFetchAll` (`App.tsx` lines 1030-1191):
`while (hasMore && !stopAllRef.current)`, then the per-account stop flag
(set asynchronously by the countdown timer or by stop-one) checked at the
top of the body. There is no inline elapsed-time check in this loop; the
timeout acts solely through the flag. -/
def fetchAllLoop (stopAllAt stopAt : Option Nat) : List Batch → LoopState → LoopState
  | [], s => s
  | b :: rest, s =>
    if s.hasMore && !(flagAt stopAllAt s.page) then
      if flagAt stopAt s.page then stopFlagSave s
      else fetchAllLoop stopAllAt stopAt rest (applyBatchAll b s)
    else s

/-- Terminal-status classification of `handleFetchAll`'s epilogue
(`App.tsx` lines 1203-1250): timeout, stop-all and has-more-left exits are
`failed` when no media was fetched and `incomplete` otherwise; the remaining
case is natural completion. -/
def fetchAllStatus (wasTimeout stopAll hasMore : Bool) (finalMediaCount : Nat) :
    AccountStatus :=
  if wasTimeout then
    (if finalMediaCount = 0 then .failed else .incomplete)
  else if stopAll then
    (if finalMediaCount = 0 then .failed else .incomplete)
  else if hasMore then
    (if finalMediaCount = 0 then .failed else .incomplete)
  else .completed

/-- `handleFetchAll`'s epilogue: the status is assigned but the checkpoint
store is not touched — in particular nothing is cleared on natural
completion (`App.tsx` lines 1240-1250). -/
def fetchAllFinish (wasTimeout stopAll : Bool) (s : LoopState) :
    AccountStatus × LoopState :=
  (fetchAllStatus wasTimeout stopAll s.hasMore s.timeline.length, s)

/-- One account processed by the multi-account scheduler: run the loop from
a fresh state, then classify using the flag values as read at loop exit. -/
def handleFetchAllAccount (stopAllAt stopAt : Option Nat) (stub : List Batch) :
    AccountStatus × LoopState :=
  let s := fetchAllLoop stopAllAt stopAt stub initState
  fetchAllFinish (flagAt stopAt s.page) (flagAt stopAllAt s.page) s

/-- ASCII lowering, modelling `strings.ToLower` / `.toLowerCase()` on the
ASCII diagnostics involved. -/
def lowerStr (s : String) : String := String.mk (s.data.map Char.toLower)

/-- `leadsWith needle hay` holds when `needle` begins `hay`. -/
def leadsWith : List Char → List Char → Bool
  | [], _ => true
  | _ :: _, [] => false
  | a :: as, b :: bs => a == b && leadsWith as bs

/-- Substring occurrence on character lists. -/
def occursIn (needle : List Char) : List Char → Bool
  | [] => needle.isEmpty
  | h :: t => leadsWith needle (h :: t) || occursIn needle t

/-- Go's `strings.Contains` / JS `String.includes`. -/
def containsSub (hay needle : String) : Bool := occursIn needle.data hay.data

/-- Authentication-class error detection in `handleFetchAll` and
`handleRetryAccount` catch blocks (`App.tsx` lines 1271-1275 and
1712-1716): substring checks over the lowercased error message. -/
def isAuthError (msg : String) : Bool :=
  containsSub (lowerStr msg) "401" ||
  containsSub (lowerStr msg) "unauthorized" ||
  containsSub (lowerStr msg) "auth token may be invalid" ||
  containsSub (lowerStr msg) "auth token may be expired" ||
  containsSub (lowerStr msg) "invalid or expired"

/-- Status assigned by the catch blocks of `handleFetchAll` and
`handleRetryAccount` (`App.tsx` lines 1277-1281): auth-class errors force
`failed`; otherwise `failed` on zero items and `incomplete` on some. -/
def fetchAllErrorStatus (errorMsg : String) (mediaCount : Nat) : AccountStatus :=
  if isAuthError errorMsg ∨ mediaCount = 0 then .failed else .incomplete

/-- The resumability test on a loaded full checkpoint
(`existingState && existingState.cursor && !existingState.completed`,
`App.tsx` lines 1397 and 338). -/
def ckptResumable : Option FetchState → Bool
  | some st => st.cursor != "" && !st.completed
  | none => false

/-- The cursor-fallback chain of `handleRetryAccount` when no resumable full
checkpoint exists (`App.tsx` lines 1405-1441): the AccountTask's own saved
cursor (`account.cursor`, line 1390) first, then the lightweight stored
cursor (`getCursor`), then the database cursor, else a fresh start that
clears the stale full state and lightweight cursor. -/
def retryFallback (taskCursor : String) (ckpt0 : Option FetchState)
    (light0 dbCursor : String) : LoopState :=
  if taskCursor != "" then
    { initState with cursor := taskCursor, ckpt := ckpt0, lightCursor := light0 }
  else if light0 != "" then
    { initState with cursor := light0, ckpt := ckpt0, lightCursor := light0 }
  else if dbCursor != "" then
    { initState with cursor := dbCursor, ckpt := ckpt0, lightCursor := light0 }
  else
    { initState with ckpt := none, lightCursor := "" }

/-- The resume prologue of `handleRetryAccount` (`App.tsx` lines 1387-1441):
a resumable full checkpoint restores items, cursor and account info;
otherwise the cursor-fallback chain applies. -/
def retryInit (taskCursor : String) (ckpt0 : Option FetchState)
    (light0 dbCursor : String) : LoopState :=
  match ckpt0 with
  | some st =>
    if st.cursor != "" && !st.completed then
      { initState with timeline := st.timeline, cursor := st.cursor,
                       accountInfo := st.accountInfo, ckpt := ckpt0, lightCursor := light0 }
    else retryFallback taskCursor ckpt0 light0 dbCursor
  | none => retryFallback taskCursor ckpt0 light0 dbCursor

/-- The body of one successful batch iteration of the retry loop
(`App.tsx` lines 1526-1635): like the other loops, except that the full
Session checkpoint is written only periodically —
`page % 3 === 0 || !hasMore || accountStopFlagsRef.current.get(accountId)`
(line 1576) — while the lightweight cursor is saved every batch. -/
def applyBatchRetry (stopAt : Option Nat) (b : Batch) (s : LoopState) : LoopState :=
  let merged := mergeTimelines s.timeline b.timeline
  let accountInfo := match s.accountInfo with
    | some a => some a
    | none => some b.accountInfo
  let cursor := b.cursor
  let hasMore := cursor != "" && !b.completed
  let page := s.page + 1
  let fullSave := (page % 3 = 0) ∨ hasMore = false ∨ flagAt stopAt page = true
  { elapsed := s.elapsed + b.duration
    timeline := merged
    accountInfo := accountInfo
    cursor := cursor
    hasMore := hasMore
    page := page
    stopped := s.stopped
    ckpt := if fullSave then
        some { cursor := cursor, timeline := merged, accountInfo := accountInfo,
               completed := !hasMore }
      else s.ckpt
    lightCursor := if cursor != "" then cursor else s.lightCursor
    ckptWrites := if fullSave then s.ckptWrites + 1 else s.ckptWrites }

/-- The retry loop of `handleRetryAccount` (`App.tsx` lines 1520-1636):
`while (hasMore && !stopAllRef.current)` with the per-account stop flag
checked at the top of the body; breaking on the flag saves nothing extra. -/
def retryLoop (stopAllAt stopAt : Option Nat) : List Batch → LoopState → LoopState
  | [], s => s
  | b :: rest, s =>
    if s.hasMore && !(flagAt stopAllAt s.page) then
      if flagAt stopAt s.page then s
      else retryLoop stopAllAt stopAt rest (applyBatchRetry stopAt b s)
    else s

/-- The epilogue of `handleRetryAccount` (`App.tsx` lines 1648-1691): the
same classification as `handleFetchAll`, but natural completion additionally
clears the full checkpoint and the lightweight cursor. -/
def retryFinish (wasTimeout stopAll : Bool) (s : LoopState) :
    AccountStatus × LoopState :=
  if wasTimeout then
    (if s.timeline.length = 0 then .failed else .incomplete, s)
  else if stopAll then
    (if s.timeline.length = 0 then .failed else .incomplete, s)
  else if s.hasMore then
    (if s.timeline.length = 0 then .failed else .incomplete, s)
  else (.completed, { s with ckpt := none, lightCursor := "" })

/-- One whole retry of an account (`handleRetryAccount`): prologue, loop,
epilogue. -/
def handleRetryAccount (taskCursor : String) (ckpt0 : Option FetchState)
    (light0 dbCursor : String) (stopAllAt stopAt : Option Nat) (stub : List Batch) :
    AccountStatus × LoopState :=
  let s := retryLoop stopAllAt stopAt stub (retryInit taskCursor ckpt0 light0 dbCursor)
  retryFinish (flagAt stopAt s.page) (flagAt stopAllAt s.page) s

/-- Go's `unicode.IsSpace` restricted to the Latin-1 range, as used by
`strings.TrimSpace`. -/
def goIsSpace (c : Char) : Bool :=
  c = ' ' || c = '\t' || c = '\n' || c = '\x0b' || c = '\x0c' || c = '\r' ||
  c = '\x85' || c = '\xa0'

/-- Drop whitespace on both ends of a character list. -/
def trimChars (l : List Char) : List Char :=
  ((l.dropWhile goIsSpace).reverse.dropWhile goIsSpace).reverse

/-- Go's `strings.TrimSpace`. -/
def goTrim (s : String) : String := String.mk (trimChars s.data)

/-- Split at a separator character, Go `strings.Split` semantics. -/
def splitOnChar (sep : Char) : List Char → List (List Char)
  | [] => [[]]
  | c :: t =>
    let r := splitOnChar sep t
    if c = sep then [] :: r
    else
      match r with
      | [] => [[c]]
      | h :: t2 => (c :: h) :: t2

/-- The hint cascade of `parseExtractorError` (`twitter.go` lines 66-78):
a user-facing hint chosen by substring inspection of the diagnostic. -/
def errorHint (output username : String) : String :=
  let outputLower := lowerStr output
  if containsSub outputLower "unable to retrieve tweets from this timeline" then
    " [Hint: End of timeline reached or rate limited - data already fetched has been saved]"
  else if containsSub outputLower "rate limit" || containsSub output "429" then
    " [Hint: Wait 5-15 minutes before retrying]"
  else if containsSub output "401" || containsSub outputLower "unauthorized" then
    " [Hint: Auth token may be invalid or expired]"
  else if containsSub output "404" then
    " [Hint: @" ++ username ++ " may not exist or is suspended]"
  else if containsSub outputLower "protected" || containsSub output "403" then
    " [Hint: Protected account - need to follow and use auth token]"
  else ""

/-- The error-line selection of `parseExtractorError` (`twitter.go` lines
47-59): the first line containing "error:" or "exception"
(case-insensitively), trimmed; else the whole trimmed output. -/
def findErrorLine (output : String) : String :=
  let lines := (splitOnChar '\n' output.data).map String.mk
  let fromLines :=
    match lines.find? (fun l =>
        containsSub (lowerStr l) "error:" || containsSub (lowerStr l) "exception") with
    | some l => goTrim l
    | none => ""
  if fromLines = "" then goTrim output else fromLines

/-- `parseExtractorError` (`twitter.go` lines 44-81): selected error line,
truncated to 300 characters with an ellipsis when longer, with the hint
appended. (Go truncates at 300 bytes; on the ASCII diagnostics considered
here bytes and characters coincide.) -/
def parseExtractorError (output username : String) : String :=
  let errorLine0 := findErrorLine output
  let errorLine :=
    if errorLine0.length > 300 then String.mk (errorLine0.data.take 300) ++ "..."
    else errorLine0
  errorLine ++ errorHint output username

/-- The brace scan of `extractJSON` (`twitter.go` lines 904-918): track
depth from the first opening brace; return the consumed characters when the
depth returns to zero. -/
def braceScan : Int → List Char → List Char → Option (List Char)
  | _, _, [] => none
  | depth, acc, c :: t =>
    if c = '\x7b' then braceScan (depth + 1) (acc ++ [c]) t
    else if c = '\x7d' then
      (if depth = 1 then some (acc ++ [c])
       else braceScan (depth - 1) (acc ++ [c]) t)
    else braceScan depth (acc ++ [c]) t

/-- `extractJSON` (`twitter.go` lines 896-919): the substring from the first
opening brace through its matching closing brace, `""` when no balanced
substring exists. -/
def extractJSON (output : String) : String :=
  match braceScan 0 [] (output.data.dropWhile (fun c => c ≠ '\x7b')) with
  | some r => String.mk r
  | none => ""

/-- The two errors `ExtractTimeline` produces from a successfully exiting
subprocess whose output holds no balanced JSON object
(`twitter.go` lines 615-623). -/
inductive ExtractError
  | emptyResponse
  | parseError
deriving DecidableEq, Repr

/-- The output-handling slice of `ExtractTimeline` after a successful
subprocess exit (`twitter.go` lines 615-623): extract the JSON; empty
extraction is `empty_response` when the trimmed output is empty and
`parse_error` otherwise; a nonempty extraction proceeds to JSON parsing. -/
def handleExtractorOutput (output : String) : Except ExtractError String :=
  let jsonStr := extractJSON output
  if jsonStr = "" then
    (if goTrim output = "" then .error .emptyResponse
     else .error .parseError)
  else .ok jsonStr

/-- Depth delta of one character of the brace scan. -/
def braceStep (d : Int) (c : Char) : Int :=
  if c = '\x7b' then d + 1 else if c = '\x7d' then d - 1 else d

/-- Net brace depth of a character list. -/
def netDepth (l : List Char) : Int :=
  l.foldl braceStep 0

/-- `r` is the substring of `output` starting at the first opening brace and
ending at its matching closing brace: nothing before it contains an opening
brace, it starts with one, its net depth is zero, and every proper nonempty
prefix has positive net depth (so the final character is the first point the
depth returns to zero). -/
def isMatchingBraceSeg (output r : String) : Prop :=
  ∃ pre post : List Char,
    output.data = pre ++ r.data ++ post ∧
    (∀ c ∈ pre, c ≠ '\x7b') ∧
    r.data.head? = some '\x7b' ∧
    netDepth r.data = 0 ∧
    ∀ p q : List Char, r.data = p ++ q → p ≠ [] → q ≠ [] → 0 < netDepth p

/-- The full checkpoint reflects the current loop state, marked completed
exactly when the loop is done. -/
def reflects (s : LoopState) : Prop :=
  s.ckpt = some { cursor := s.cursor, timeline := s.timeline,
                  accountInfo := s.accountInfo, completed := !s.hasMore }

/-- Loop invariant: either no batch has been processed yet and the fresh
path cleared the checkpoint, or the checkpoint reflects the current state. -/
def ckptInv (s : LoopState) : Prop :=
  (s.page = 0 ∧ s.ckpt = none ∧ s.timeline = []) ∨ reflects s

@[simp] lemma durUpTo_zero (stub : List Batch) : durUpTo stub 0 = 0 := rfl

@[simp] lemma durUpTo_succ_cons (b : Batch) (rest : List Batch) (n : Nat) :
    durUpTo (b :: rest) (n + 1) = b.duration + durUpTo rest n := by
  simp [durUpTo, List.take_succ_cons]

@[simp] lemma mergedUpTo_zero (init : List TimelineEntry) (stub : List Batch) :
    mergedUpTo init stub 0 = init := rfl

@[simp] lemma mergedUpTo_succ_cons (init : List TimelineEntry) (b : Batch)
    (rest : List Batch) (n : Nat) :
    mergedUpTo init (b :: rest) (n + 1) =
      mergedUpTo (mergeTimelines init b.timeline) rest n := by
  simp [mergedUpTo, List.take_succ_cons]

@[simp] lemma timeoutStop_page (s : LoopState) : (timeoutStop s).page = s.page := by
  unfold timeoutStop; split <;> rfl

@[simp] lemma timeoutStop_stopped (s : LoopState) : (timeoutStop s).stopped = true := by
  unfold timeoutStop; split <;> rfl

@[simp] lemma timeoutStop_timeline (s : LoopState) : (timeoutStop s).timeline = s.timeline := by
  unfold timeoutStop; split <;> rfl

/-- The loop never decreases the number of Adapter calls made. -/
lemma fetchLoop_page_mono (T : Nat) (cancel : Nat → Bool) :
    ∀ (l : List Batch) (s : LoopState), s.page ≤ (fetchLoop T cancel l s).page := by
  intro l
  induction l with
  | nil => intro s; exact Nat.le_refl _
  | cons b rest ih =>
    intro s
    unfold fetchLoop
    by_cases hg : (s.hasMore && !(s.stopped || cancel s.page)) = true
    · rw [if_pos hg]
      by_cases ht : T ≤ s.elapsed
      · rw [if_pos ht]; simp
      · rw [if_neg ht]
        calc s.page ≤ (applyBatch b s).page := by simp [applyBatch]
          _ ≤ _ := ih _
    · rw [if_neg hg]

/-- A loop entered with `hasMore = false` and no cancellation makes no
further call and leaves the state unchanged. -/
lemma fetchLoop_of_not_hasMore (T : Nat) (l : List Batch) (s : LoopState)
    (h : s.hasMore = false) : fetchLoop T noCancel l s = s := by
  cases l with
  | nil => rfl
  | cons b rest =>
    have hg : (s.hasMore && !(s.stopped || noCancel s.page)) = false := by
      simp [h, noCancel]
    have hneg : ¬((s.hasMore && !(s.stopped || noCancel s.page)) = true) := by
      rw [hg]; simp
    show (if s.hasMore && !(s.stopped || noCancel s.page) then _ else _) = s
    rw [if_neg hneg]
    show { s with stopped := s.stopped || noCancel s.page } = s
    simp [noCancel]

/-- One guarded step of the loop when the guard holds and the budget is not
yet exhausted. -/
lemma fetchLoop_step (T : Nat) (b : Batch) (rest : List Batch) (s : LoopState)
    (hm : s.hasMore = true) (hs : s.stopped = false) (ht : ¬ T ≤ s.elapsed) :
    fetchLoop T noCancel (b :: rest) s = fetchLoop T noCancel rest (applyBatch b s) := by
  have hguard : (s.hasMore && !(s.stopped || noCancel s.page)) = true := by
    simp [hm, hs, noCancel]
  show (if s.hasMore && !(s.stopped || noCancel s.page) then _ else _) = _
  rw [if_pos hguard, if_neg ht]

/-- One guarded step of the loop when the guard holds but the budget is
already exhausted: the pre-emptive timeout branch fires. -/
lemma fetchLoop_timeout_step (T : Nat) (b : Batch) (rest : List Batch) (s : LoopState)
    (hm : s.hasMore = true) (hs : s.stopped = false) (ht : T ≤ s.elapsed) :
    fetchLoop T noCancel (b :: rest) s = timeoutStop s := by
  have hguard : (s.hasMore && !(s.stopped || noCancel s.page)) = true := by
    simp [hm, hs, noCancel]
  show (if s.hasMore && !(s.stopped || noCancel s.page) then _ else _) = _
  rw [if_pos hguard, if_pos ht]

/-- Pre-emptive timeout, general form: starting from a state whose full
checkpoint already reflects the current merged state as non-completed, if the
next `m` stub batches all signal continuation, the budget is not exhausted
before each of them but is exhausted at the check before call `m + 1`, and
that further call exists in the stub, then the loop issues exactly `m` more
calls, stops, and the checkpoint holds exactly the items merged through those
calls, marked non-completed. -/
lemma fetchLoop_timeout_of_budget :
    ∀ (m : Nat) (stub : List Batch) (T : Nat) (s : LoopState),
      s.hasMore = true →
      s.stopped = false →
      s.ckpt = some { cursor := s.cursor, timeline := s.timeline,
                      accountInfo := s.accountInfo, completed := false } →
      (∀ j, j < m → s.elapsed + durUpTo stub j < T) →
      T ≤ s.elapsed + durUpTo stub m →
      (∀ b ∈ stub.take m, b.cursor ≠ "" ∧ b.completed = false) →
      m < stub.length →
      (fetchLoop T noCancel stub s).page = s.page + m ∧
      (fetchLoop T noCancel stub s).stopped = true ∧
      (fetchLoop T noCancel stub s).timeline = mergedUpTo s.timeline stub m ∧
      ∃ cur ai, (fetchLoop T noCancel stub s).ckpt =
        some { cursor := cur, timeline := mergedUpTo s.timeline stub m,
               accountInfo := ai, completed := false } := by
  intro m
  induction m with
  | zero =>
    intro stub T s hm hs hc _ hT _ hlen
    cases stub with
    | nil => simp at hlen
    | cons b rest =>
      have ht : T ≤ s.elapsed := by simpa using hT
      rw [fetchLoop_timeout_step T b rest s hm hs ht]
      refine ⟨by simp, by simp, by simp, ?_⟩
      unfold timeoutStop
      by_cases hcond : (s.accountInfo.isSome && !s.timeline.isEmpty) = true
      · rw [if_pos hcond]
        exact ⟨s.cursor, s.accountInfo, by simp [mergedUpTo]⟩
      · rw [if_neg hcond]
        exact ⟨s.cursor, s.accountInfo, by simpa [mergedUpTo] using hc⟩
  | succ m ih =>
    intro stub T s hm hs hc hfast hT hcont hlen
    cases stub with
    | nil => simp at hlen
    | cons b rest =>
      have hb : b.cursor ≠ "" ∧ b.completed = false := by
        apply hcont b
        simp [List.take_succ_cons]
      have ht : ¬ T ≤ s.elapsed := by
        have h0 := hfast 0 (Nat.succ_pos m)
        simp only [durUpTo_zero, Nat.add_zero] at h0
        omega
      rw [fetchLoop_step T b rest s hm hs ht]
      have hm' : (applyBatch b s).hasMore = true := by
        simp [applyBatch, bne_iff_ne, hb.1, hb.2]
      have hs' : (applyBatch b s).stopped = false := by
        simp [applyBatch, hs]
      have hc' : (applyBatch b s).ckpt =
          some { cursor := (applyBatch b s).cursor, timeline := (applyBatch b s).timeline,
                 accountInfo := (applyBatch b s).accountInfo, completed := false } := by
        simp [applyBatch, bne_iff_ne, hb.1, hb.2]
      have he : (applyBatch b s).elapsed = s.elapsed + b.duration := by
        simp [applyBatch]
      have hfast' : ∀ j, j < m → (applyBatch b s).elapsed + durUpTo rest j < T := by
        intro j hj
        have := hfast (j + 1) (by omega)
        rw [durUpTo_succ_cons] at this
        omega
      have hT' : T ≤ (applyBatch b s).elapsed + durUpTo rest m := by
        rw [durUpTo_succ_cons] at hT
        omega
      have hcont' : ∀ x ∈ rest.take m, x.cursor ≠ "" ∧ x.completed = false := by
        intro x hx
        apply hcont x
        rw [List.take_succ_cons]
        exact List.mem_cons_of_mem _ hx
      have hlen' : m < rest.length := by
        simp only [List.length_cons] at hlen
        omega
      obtain ⟨hp, hst, htl, cur, ai, hck⟩ :=
        ih rest T (applyBatch b s) hm' hs' hc' hfast' hT' hcont' hlen'
      have hpage : (applyBatch b s).page = s.page + 1 := by
        simp [applyBatch]
      have htl2 : (applyBatch b s).timeline = mergeTimelines s.timeline b.timeline := by
        simp [applyBatch]
      have hmerged : mergedUpTo (applyBatch b s).timeline rest m =
          mergedUpTo s.timeline (b :: rest) (m + 1) := by
        rw [mergedUpTo_succ_cons, htl2]
      refine ⟨?_, hst, ?_, cur, ai, ?_⟩
      · rw [hp, hpage]; omega
      · rw [htl, hmerged]
      · rw [hck, hmerged]

/-- A session that stopped keeps its checkpoint through the epilogue. -/
lemma finishSingle_of_stopped (s : LoopState) (h : s.stopped = true) :
    finishSingle s = s := by
  unfold finishSingle
  rw [if_pos h]

/-- C1: with a configured timeout `T`, elapsed wall-clock time is compared
against `T` before each Adapter call; once it reaches `T` no further call is
issued, the session stops, and a non-completed checkpoint holds the current
state. If the budget is exhausted exactly at the check before call `k`
(calls `1..k-1` completed within budget and all signalled continuation, and
call `k` exists in the stub), the session ends after call `k-1` with
`stopFetchRef` set and a checkpoint containing exactly the items merged
through call `k-1`, marked `completed = false`. -/
theorem timeout_stops_before_call_k
    (T batchSize k : Nat) (stub : List Batch)
    (h2 : 2 ≤ k)
    (hcont : ∀ b ∈ stub.take (k - 1), b.cursor ≠ "" ∧ b.completed = false)
    (hfast : ∀ j, j < k - 1 → durUpTo stub j < T)
    (hslow : T ≤ durUpTo stub (k - 1))
    (hlen : k ≤ stub.length) :
    (handleFetchRun T batchSize noCancel stub).page = k - 1 ∧
    (handleFetchRun T batchSize noCancel stub).stopped = true ∧
    (handleFetchRun T batchSize noCancel stub).timeline = mergedUpTo [] stub (k - 1) ∧
    ∃ cur ai, (handleFetchRun T batchSize noCancel stub).ckpt =
      some { cursor := cur, timeline := mergedUpTo [] stub (k - 1),
             accountInfo := ai, completed := false } := by
  obtain ⟨m, rfl⟩ : ∃ m, k = m + 2 := ⟨k - 2, by omega⟩
  have hk1 : m + 2 - 1 = m + 1 := by omega
  rw [hk1] at hcont hfast hslow ⊢
  cases stub with
  | nil => simp at hlen
  | cons b rest =>
    have hb : b.cursor ≠ "" ∧ b.completed = false := by
      apply hcont b
      rw [List.take_succ_cons]
      exact List.mem_cons_self _ _
    have ht : ¬ T ≤ initState.elapsed := by
      have h0 := hfast 0 (by omega)
      simp only [durUpTo_zero] at h0
      show ¬ T ≤ 0
      omega
    unfold handleFetchRun
    rw [fetchLoop_step T b rest initState rfl rfl ht]
    have hm' : (applyBatch b initState).hasMore = true := by
      simp [applyBatch, bne_iff_ne, hb.1, hb.2]
    have hs' : (applyBatch b initState).stopped = false := by
      simp [applyBatch, initState]
    have hc' : (applyBatch b initState).ckpt =
        some { cursor := (applyBatch b initState).cursor,
               timeline := (applyBatch b initState).timeline,
               accountInfo := (applyBatch b initState).accountInfo, completed := false } := by
      simp [applyBatch, bne_iff_ne, hb.1, hb.2]
    have he : (applyBatch b initState).elapsed = b.duration := by
      simp [applyBatch, initState]
    have hfast' : ∀ j, j < m → (applyBatch b initState).elapsed + durUpTo rest j < T := by
      intro j hj
      have := hfast (j + 1) (by omega)
      rw [durUpTo_succ_cons] at this
      omega
    have hT' : T ≤ (applyBatch b initState).elapsed + durUpTo rest m := by
      rw [durUpTo_succ_cons] at hslow
      omega
    have hcont' : ∀ x ∈ rest.take m, x.cursor ≠ "" ∧ x.completed = false := by
      intro x hx
      apply hcont x
      rw [List.take_succ_cons]
      exact List.mem_cons_of_mem _ hx
    have hlen' : m < rest.length := by
      simp only [List.length_cons] at hlen
      omega
    obtain ⟨hp, hst, htl, cur, ai, hck⟩ :=
      fetchLoop_timeout_of_budget m rest T (applyBatch b initState)
        hm' hs' hc' hfast' hT' hcont' hlen'
    rw [finishSingle_of_stopped _ hst]
    have hpage : (applyBatch b initState).page = 1 := by
      simp [applyBatch, initState]
    have htl2 : (applyBatch b initState).timeline = mergeTimelines [] b.timeline := by
      simp [applyBatch, initState]
    have hmerged : mergedUpTo (applyBatch b initState).timeline rest m =
        mergedUpTo [] (b :: rest) (m + 1) := by
      rw [mergedUpTo_succ_cons, htl2]
    refine ⟨?_, hst, ?_, cur, ai, ?_⟩
    · rw [hp, hpage]; omega
    · rw [htl, hmerged]
    · rw [hck, hmerged]

/-- Witness for C1: with timeout 3 and a stub whose calls take 2, 2 and 1
seconds, the budget is exhausted before call 3; the run makes exactly two
calls and checkpoints the two merged items as non-completed. -/
theorem timeout_stops_before_call_k_witness :
    (handleFetchRun 3 200 noCancel stubTimeout).page = 2 ∧
    (handleFetchRun 3 200 noCancel stubTimeout).stopped = true ∧
    (handleFetchRun 3 200 noCancel stubTimeout).timeline = mergedUpTo [] stubTimeout 2 ∧
    ∃ cur ai, (handleFetchRun 3 200 noCancel stubTimeout).ckpt =
      some { cursor := cur, timeline := mergedUpTo [] stubTimeout 2,
             accountInfo := ai, completed := false } :=
  timeout_stops_before_call_k 3 200 3 stubTimeout (by decide) (by decide)
    (by decide) (by decide) (by decide)

/-- C2: continuation is decided by `hasMore = cursor present AND NOT
completed` at three places: the backend response assembly sets
`Metadata.HasMore` that way; the frontend loop body recomputes it the same
way from the latest response; and the loop issues a further Adapter call
exactly when that `hasMore` holds and the session was not stopped (the
pre-emptive budget check stopping it counts as stopped). -/
theorem hasMore_decides_continuation :
    (∀ (ai : AccountInfo) (tl : List TimelineEntry) (p bs : Nat) (cur : String) (comp : Bool),
        (mkTwitterResponse ai tl p bs cur comp).metadata.hasMore = true ↔
          cur ≠ "" ∧ comp = false) ∧
    (∀ (b : Batch) (s : LoopState),
        (applyBatch b s).hasMore = true ↔ b.cursor ≠ "" ∧ b.completed = false) ∧
    (∀ (T : Nat) (cancel : Nat → Bool) (b : Batch) (rest : List Batch) (s : LoopState),
        (fetchLoop T cancel (b :: rest) s).page ≠ s.page ↔
          s.hasMore = true ∧ (s.stopped || cancel s.page) = false ∧ s.elapsed < T) := by
  refine ⟨?_, ?_, ?_⟩
  · intro ai tl p bs cur comp
    simp [mkTwitterResponse, Bool.and_eq_true, bne_iff_ne, Bool.not_eq_true']
  · intro b s
    simp [applyBatch, Bool.and_eq_true, bne_iff_ne, Bool.not_eq_true']
  · intro T cancel b rest s
    constructor
    · intro hne
      by_cases hg : (s.hasMore && !(s.stopped || cancel s.page)) = true
      · by_cases ht : T ≤ s.elapsed
        · exfalso
          apply hne
          have hstep : fetchLoop T cancel (b :: rest) s = timeoutStop s := by
            show (if s.hasMore && !(s.stopped || cancel s.page) then _ else _) = _
            rw [if_pos hg, if_pos ht]
          rw [hstep, timeoutStop_page]
        · have h1 := (Bool.and_eq_true _ _).mp hg
          exact ⟨h1.1, by simpa using h1.2, by omega⟩
      · exfalso
        apply hne
        have hstep : fetchLoop T cancel (b :: rest) s =
            { s with stopped := s.stopped || cancel s.page } := by
          show (if s.hasMore && !(s.stopped || cancel s.page) then _ else _) = _
          rw [if_neg hg]
        rw [hstep]
    · rintro ⟨h1, h2, h3⟩
      have hg : (s.hasMore && !(s.stopped || cancel s.page)) = true := by
        simp [h1, h2]
      have ht : ¬ T ≤ s.elapsed := by omega
      have hstep : fetchLoop T cancel (b :: rest) s =
          fetchLoop T cancel rest (applyBatch b s) := by
        show (if s.hasMore && !(s.stopped || cancel s.page) then _ else _) = _
        rw [if_pos hg, if_neg ht]
      rw [hstep]
      have hmono := fetchLoop_page_mono T cancel rest (applyBatch b s)
      have hp : (applyBatch b s).page = s.page + 1 := by simp [applyBatch]
      omega

/-- C8 counterexample: with batch size configured as 0, a stub whose first
response carries a nonempty cursor and `completed = false` makes the loop
body execute twice (two Adapter calls), not exactly once: the loop guard
(`App.tsx` line 449) never reads the batch size. -/
theorem batch_size_zero_two_calls :
    (handleFetchRun 60 0 noCancel stubTwo).page = 2 ∧
    stubTwo.head?.map Batch.cursor = some "c1" ∧
    stubTwo.head?.map Batch.completed = some false := by
  decide

/-- C8 (amended): with batch size 0 the loop body executes exactly once
provided the Adapter's single response signals completion (absent cursor or
completed flag); the loop guard does not special-case batch size 0 and would
iterate again on a response with a nonempty cursor and `completed = false`. -/
theorem batch_size_zero_single_call
    (T : Nat) (b : Batch) (rest : List Batch)
    (hT : 0 < T) (hend : b.cursor = "" ∨ b.completed = true) :
    (handleFetchRun T 0 noCancel (b :: rest)).page = 1 := by
  unfold handleFetchRun
  have ht : ¬ T ≤ initState.elapsed := by
    show ¬ T ≤ 0
    omega
  rw [fetchLoop_step T b rest initState rfl rfl ht]
  have hnomore : (applyBatch b initState).hasMore = false := by
    rcases hend with h | h <;> simp [applyBatch, h]
  rw [fetchLoop_of_not_hasMore T rest _ hnomore]
  unfold finishSingle
  split <;> simp [applyBatch, initState]

/-- Witness for the amended C8: a single completed response yields exactly
one call. -/
theorem batch_size_zero_single_call_witness :
    (handleFetchRun 60 0 noCancel
      [{ accountInfo := acctW, timeline := [entA], cursor := "", completed := true,
         duration := 1 }]).page = 1 :=
  batch_size_zero_single_call 60
    { accountInfo := acctW, timeline := [entA], cursor := "", completed := true, duration := 1 }
    [] (by decide) (Or.inl rfl)

/-- An entry already in the accumulator survives one merge step. -/
lemma mem_mergeStep_of_mem {x : TimelineEntry} (acc : List TimelineEntry)
    (e : TimelineEntry) (h : x ∈ acc) : x ∈ mergeStep acc e := by
  unfold mergeStep
  split <;> simp [h]

/-- After one merge step, the stepped entry's identity is represented. -/
lemma exists_key_mergeStep (acc : List TimelineEntry) (e : TimelineEntry) :
    ∃ x ∈ mergeStep acc e, entryKey x = entryKey e := by
  unfold mergeStep
  by_cases h : acc.any (fun x => decide (entryKey x = entryKey e)) = true
  · rcases List.any_eq_true.mp h with ⟨x, hx, hk⟩
    exact ⟨x, by simp [h, hx], of_decide_eq_true hk⟩
  · exact ⟨e, by simp [h], rfl⟩

/-- An entry already in the accumulator stays in it through any sequence of
merge steps. -/
lemma mem_foldl_mergeStep_of_mem {x : TimelineEntry} :
    ∀ (incoming : List TimelineEntry) (acc : List TimelineEntry),
      x ∈ acc → x ∈ incoming.foldl mergeStep acc := by
  intro incoming
  induction incoming with
  | nil => intro acc h; simpa using h
  | cons b rest ih =>
    intro acc h
    exact ih _ (mem_mergeStep_of_mem acc b h)

/-- After merging, every incoming entry has a representative with the same
identity in the result. -/
lemma key_covered_after_merge {e : TimelineEntry} :
    ∀ (incoming : List TimelineEntry) (acc : List TimelineEntry),
      e ∈ incoming →
      ∃ x ∈ incoming.foldl mergeStep acc, entryKey x = entryKey e := by
  intro incoming
  induction incoming with
  | nil => intro acc h; simp at h
  | cons b rest ih =>
    intro acc h
    rcases List.mem_cons.mp h with rfl | h'
    · rcases exists_key_mergeStep acc e with ⟨x, hx, hk⟩
      exact ⟨x, mem_foldl_mergeStep_of_mem rest _ hx, hk⟩
    · exact ih _ h'

/-- Merging a batch whose identities are all already represented in the
accumulator leaves the accumulator unchanged. -/
lemma foldl_mergeStep_eq_of_covered :
    ∀ (incoming : List TimelineEntry) (acc : List TimelineEntry),
      (∀ e ∈ incoming, ∃ x ∈ acc, entryKey x = entryKey e) →
      incoming.foldl mergeStep acc = acc := by
  intro incoming
  induction incoming with
  | nil => intro acc _; rfl
  | cons b rest ih =>
    intro acc hcov
    have hb : acc.any (fun x => decide (entryKey x = entryKey b)) = true := by
      rcases hcov b (List.mem_cons_self _ _) with ⟨x, hx, hk⟩
      exact List.any_eq_true.mpr ⟨x, hx, decide_eq_true hk⟩
    have hstep : mergeStep acc b = acc := by
      unfold mergeStep
      simp [hb]
    show List.foldl mergeStep (mergeStep acc b) rest = acc
    rw [hstep]
    exact ih acc (fun e he => hcov e (List.mem_cons_of_mem _ he))

/-- The merge only ever appends: the existing sequence is kept in place as
the prefix of the result. -/
lemma foldl_mergeStep_append :
    ∀ (incoming : List TimelineEntry) (acc : List TimelineEntry),
      ∃ added, incoming.foldl mergeStep acc = acc ++ added := by
  intro incoming
  induction incoming with
  | nil => intro acc; exact ⟨[], by simp⟩
  | cons b rest ih =>
    intro acc
    rcases ih (mergeStep acc b) with ⟨added, hadded⟩
    by_cases h : acc.any (fun x => decide (entryKey x = entryKey b)) = true
    · refine ⟨added, ?_⟩
      show List.foldl mergeStep (mergeStep acc b) rest = acc ++ added
      rw [hadded]
      unfold mergeStep
      simp [h]
    · refine ⟨b :: added, ?_⟩
      show List.foldl mergeStep (mergeStep acc b) rest = acc ++ b :: added
      rw [hadded]
      unfold mergeStep
      simp [h]

/-- C7: for all entry sequences A and B, merging B a second time changes
nothing — `merge (merge A B) B = merge A B` — and the merge never disturbs
the already-merged entries: `merge A B` extends `A` in place. `mergeTimelines`
is a plain function of its two arguments, hence pure and deterministic. -/
theorem merge_idempotent_and_order_preserving :
    (∀ A B : List TimelineEntry,
        mergeTimelines (mergeTimelines A B) B = mergeTimelines A B) ∧
    (∀ A B : List TimelineEntry, ∃ added, mergeTimelines A B = A ++ added) := by
  constructor
  · intro A B
    apply foldl_mergeStep_eq_of_covered
    intro e he
    exact key_covered_after_merge B A he
  · intro A B
    exact foldl_mergeStep_append B A

/-- C3: terminal-status classification. At timeout, user-stop and
loop-exhaustion-with-more-data, the status is `failed` exactly when zero
items were fetched in this run and `incomplete` otherwise; natural
completion (no timeout, no stop, `hasMore = false`) is the only path to
`completed`; an authentication-class error forces `failed` regardless of
item count, and the error path never yields `completed`. -/
theorem terminal_status_classification :
    (∀ (wt sa hm : Bool) (n : Nat),
        (wt || sa || hm) = true →
          (fetchAllStatus wt sa hm n = AccountStatus.failed ↔ n = 0) ∧
          (fetchAllStatus wt sa hm n = AccountStatus.incomplete ↔ n ≠ 0)) ∧
    (∀ (wt sa hm : Bool) (n : Nat),
        fetchAllStatus wt sa hm n = AccountStatus.completed ↔
          wt = false ∧ sa = false ∧ hm = false) ∧
    (∀ (msg : String) (n : Nat),
        isAuthError msg = true → fetchAllErrorStatus msg n = AccountStatus.failed) ∧
    (∀ (msg : String) (n : Nat), fetchAllErrorStatus msg n ≠ AccountStatus.completed) := by
  refine ⟨?_, ?_, ?_, ?_⟩
  · intro wt sa hm n hor
    cases wt <;> cases sa <;> cases hm <;> by_cases hn : n = 0 <;>
      simp_all [fetchAllStatus]
  · intro wt sa hm n
    cases wt <;> cases sa <;> cases hm <;> by_cases hn : n = 0 <;>
      simp [fetchAllStatus, hn]
  · intro msg n h
    simp [fetchAllErrorStatus, h]
  · intro msg n
    unfold fetchAllErrorStatus
    split <;> simp

/-- Witness for C3: a timed-out task with zero items classifies as failed
and not incomplete; an auth-classed error message forces failed even with
items fetched. -/
theorem terminal_status_classification_witness :
    ((fetchAllStatus true false false 0 = AccountStatus.failed ↔ (0 : Nat) = 0) ∧
      (fetchAllStatus true false false 0 = AccountStatus.incomplete ↔ (0 : Nat) ≠ 0)) ∧
    fetchAllErrorStatus "HTTP 401 Unauthorized" 7 = AccountStatus.failed :=
  ⟨terminal_status_classification.1 true false false 0 (by decide),
   terminal_status_classification.2.2.1 "HTTP 401 Unauthorized" 7 (by decide)⟩

/-- C4 counterexample: on the multi-account scheduler path, natural
completion does not delete the Session checkpoint and does not clear the
lightweight cursor — the run below completes naturally, yet the checkpoint
is still present (saved with `completed = true`) and the lightweight cursor
still holds the first batch's cursor, contradicting the claim that every
fetch path clears both on natural completion. -/
theorem scheduler_completion_keeps_checkpoint :
    (handleFetchAllAccount none none stubTwo).1 = AccountStatus.completed ∧
    (handleFetchAllAccount none none stubTwo).2.ckpt =
      some { cursor := "", timeline := [entA, entB], accountInfo := some acctW,
             completed := true } ∧
    (handleFetchAllAccount none none stubTwo).2.lightCursor = "c1" := by
  decide

/-- The per-batch save leaves the checkpoint reflecting the new state. -/
lemma applyBatch_reflects (b : Batch) (s : LoopState) : reflects (applyBatch b s) := by
  simp [reflects, applyBatch]

/-- The pre-emptive timeout branch preserves the checkpoint invariant when
the loop was still live. -/
lemma timeoutStop_ckptInv (s : LoopState) (hm : s.hasMore = true) (h : ckptInv s) :
    ckptInv (timeoutStop s) := by
  unfold timeoutStop
  by_cases hc : (s.accountInfo.isSome && !s.timeline.isEmpty) = true
  · rw [if_pos hc]
    right
    simp [reflects, hm]
  · rw [if_neg hc]
    exact h

/-- The single-fetch loop preserves the checkpoint invariant. -/
lemma fetchLoop_ckptInv (T : Nat) (cancel : Nat → Bool) :
    ∀ (l : List Batch) (s : LoopState), ckptInv s → ckptInv (fetchLoop T cancel l s) := by
  intro l
  induction l with
  | nil => intro s h; exact h
  | cons b rest ih =>
    intro s h
    show ckptInv (if s.hasMore && !(s.stopped || cancel s.page) then
        if T ≤ s.elapsed then timeoutStop s
        else fetchLoop T cancel rest (applyBatch b s)
      else { s with stopped := s.stopped || cancel s.page })
    by_cases hg : (s.hasMore && !(s.stopped || cancel s.page)) = true
    · rw [if_pos hg]
      by_cases ht : T ≤ s.elapsed
      · rw [if_pos ht]
        exact timeoutStop_ckptInv s ((Bool.and_eq_true _ _).mp hg).1 h
      · rw [if_neg ht]
        exact ih _ (Or.inr (applyBatch_reflects b s))
    · rw [if_neg hg]
      exact h

/-- The epilogue does not change the stop flag. -/
lemma finishSingle_stopped_eq (s : LoopState) : (finishSingle s).stopped = s.stopped := by
  unfold finishSingle
  split <;> rfl

/-- C4 (amended): the single-fetch and retry paths clear both the full
Session checkpoint and the lightweight cursor exactly on natural completion,
and a stopped single-fetch session that made at least one call and still had
more data leaves a non-completed checkpoint; the multi-account scheduler
epilogue, however, touches neither store slot, so on its path natural
completion leaves the checkpoint present (saved as completed) rather than
deleting it. -/
theorem checkpoint_lifecycle_per_path :
    (∀ (T bs : Nat) (cancel : Nat → Bool) (stub : List Batch),
        (handleFetchRun T bs cancel stub).stopped = false →
        (handleFetchRun T bs cancel stub).ckpt = none ∧
        (handleFetchRun T bs cancel stub).lightCursor = "") ∧
    (∀ (wt sa : Bool) (s : LoopState),
        (retryFinish wt sa s).1 = AccountStatus.completed →
        (retryFinish wt sa s).2.ckpt = none ∧
        (retryFinish wt sa s).2.lightCursor = "") ∧
    (∀ (wt sa : Bool) (s : LoopState), (fetchAllFinish wt sa s).2 = s) ∧
    (∀ (T bs : Nat) (cancel : Nat → Bool) (stub : List Batch),
        (handleFetchRun T bs cancel stub).stopped = true →
        (handleFetchRun T bs cancel stub).hasMore = true →
        0 < (handleFetchRun T bs cancel stub).page →
        ∃ c tl ai, (handleFetchRun T bs cancel stub).ckpt =
          some { cursor := c, timeline := tl, accountInfo := ai,
                 completed := false }) := by
  refine ⟨?_, ?_, ?_, ?_⟩
  · intro T bs cancel stub h
    unfold handleFetchRun finishSingle at h ⊢
    by_cases hs : (fetchLoop T cancel stub initState).stopped = true
    · rw [if_pos hs] at h
      exact absurd h (by simp [hs])
    · rw [if_neg hs]
      exact ⟨rfl, rfl⟩
  · intro wt sa s h
    cases wt
    · cases sa
      · by_cases hm : s.hasMore = true
        · exfalso
          revert h
          simp only [retryFinish, Bool.false_eq_true, if_false, hm, if_true]
          split <;> simp
        · have hm' : s.hasMore = false := by
            revert hm; cases s.hasMore <;> simp
          constructor <;> simp [retryFinish, hm']
      · exfalso
        revert h
        simp only [retryFinish, Bool.false_eq_true, if_false, if_true]
        split <;> simp
    · exfalso
      revert h
      simp only [retryFinish, if_true]
      split <;> simp
  · intro wt sa s
    rfl
  · intro T bs cancel stub h1 h2 h3
    unfold handleFetchRun at h1 h2 h3 ⊢
    have hs : (fetchLoop T cancel stub initState).stopped = true := by
      rw [← finishSingle_stopped_eq]; exact h1
    rw [finishSingle_of_stopped _ hs] at h2 h3 ⊢
    have hinv := fetchLoop_ckptInv T cancel stub initState (Or.inl ⟨rfl, rfl, rfl⟩)
    rcases hinv with ⟨hp, _, _⟩ | hr
    · omega
    · refine ⟨(fetchLoop T cancel stub initState).cursor,
        (fetchLoop T cancel stub initState).timeline,
        (fetchLoop T cancel stub initState).accountInfo, ?_⟩
      unfold reflects at hr
      rw [h2] at hr
      simpa using hr

/-- Witness for the amended C4: the naturally completing run clears both
slots; the timed-out run keeps a non-completed checkpoint. -/
theorem checkpoint_lifecycle_per_path_witness :
    ((handleFetchRun 60 200 noCancel stubTwo).ckpt = none ∧
      (handleFetchRun 60 200 noCancel stubTwo).lightCursor = "") ∧
    ∃ c tl ai, (handleFetchRun 3 200 noCancel stubTimeout).ckpt =
      some { cursor := c, timeline := tl, accountInfo := ai, completed := false } :=
  ⟨checkpoint_lifecycle_per_path.1 60 200 noCancel stubTwo (by decide),
   checkpoint_lifecycle_per_path.2.2.2 3 200 noCancel stubTimeout
     (by decide) (by decide) (by decide)⟩

/-- C5 counterexample: in the retry path a full-Session checkpoint write
does not follow every batch. The run below processes two batches but
performs only one full-Session write (after the final batch): after batch 1
(`page = 1`, `1 % 3 ≠ 0`, more data, no stop) only the lightweight cursor is
saved, contradicting the claim that in every fetch path a full checkpoint
write follows every single batch. -/
theorem retry_skips_per_batch_checkpoint :
    (handleRetryAccount "" none "" "" none none stubTwo).2.page = 2 ∧
    (handleRetryAccount "" none "" "" none none stubTwo).2.ckptWrites = 1 := by
  decide

/-- C5 (amended): in the single-fetch and multi-account paths, every batch
iteration writes the full Session checkpoint, whose content is exactly the
merge it reflects (with `completed = !hasMore`) — and the loop recursion
shows the write happens before the next Adapter call is issued; the retry
path writes the full checkpoint only when the page is a multiple of three,
on the final batch, or when stopping — after other batches the checkpoint is
untouched (only the lightweight cursor is saved). -/
theorem checkpoint_write_per_batch :
    (∀ (b : Batch) (s : LoopState),
        (applyBatch b s).ckpt =
          some { cursor := b.cursor,
                 timeline := mergeTimelines s.timeline b.timeline,
                 accountInfo := (applyBatch b s).accountInfo,
                 completed := !(applyBatch b s).hasMore } ∧
        (applyBatch b s).ckptWrites = s.ckptWrites + 1) ∧
    (∀ (b : Batch) (s : LoopState),
        (applyBatchAll b s).ckpt =
          some { cursor := b.cursor,
                 timeline := mergeTimelines s.timeline b.timeline,
                 accountInfo := (applyBatchAll b s).accountInfo,
                 completed := !(applyBatchAll b s).hasMore } ∧
        (applyBatchAll b s).ckptWrites = s.ckptWrites + 1) ∧
    (∀ (T : Nat) (cancel : Nat → Bool) (b : Batch) (rest : List Batch) (s : LoopState),
        s.hasMore = true → (s.stopped || cancel s.page) = false → s.elapsed < T →
        fetchLoop T cancel (b :: rest) s = fetchLoop T cancel rest (applyBatch b s)) ∧
    (∀ (stopAt : Option Nat) (b : Batch) (s : LoopState),
        (s.page + 1) % 3 ≠ 0 → b.cursor ≠ "" → b.completed = false →
        flagAt stopAt (s.page + 1) = false →
        (applyBatchRetry stopAt b s).ckpt = s.ckpt ∧
        (applyBatchRetry stopAt b s).ckptWrites = s.ckptWrites) := by
  refine ⟨?_, ?_, ?_, ?_⟩
  · intro b s
    exact ⟨by simp [applyBatch], by simp [applyBatch]⟩
  · intro b s
    cases hai : s.accountInfo <;>
      exact ⟨by simp [applyBatchAll, hai], by simp [applyBatchAll, hai]⟩
  · intro T cancel b rest s h1 h2 h3
    have hg : (s.hasMore && !(s.stopped || cancel s.page)) = true := by simp [h1, h2]
    show (if s.hasMore && !(s.stopped || cancel s.page) then _ else _) = _
    rw [if_pos hg, if_neg (by omega : ¬ T ≤ s.elapsed)]
  · intro stopAt b s h1 h2 h3 h4
    have hasM : (b.cursor != "" && !b.completed) = true := by
      simp [bne_iff_ne, h2, h3]
    refine ⟨?_, ?_⟩ <;> simp [applyBatchRetry, h1, hasM, h4]

/-- Witness for the amended C5: one live single-fetch step proceeds to the
next call on the state whose checkpoint was just written; one mid-cycle
retry batch leaves the full checkpoint untouched. -/
theorem checkpoint_write_per_batch_witness :
    (fetchLoop 60 noCancel
        [{ accountInfo := acctW, timeline := [entA], cursor := "c1", completed := false,
           duration := 1 }] initState =
      fetchLoop 60 noCancel []
        (applyBatch { accountInfo := acctW, timeline := [entA], cursor := "c1",
                      completed := false, duration := 1 } initState)) ∧
    ((applyBatchRetry none { accountInfo := acctW, timeline := [entA], cursor := "c1",
                             completed := false, duration := 1 } initState).ckpt =
        initState.ckpt ∧
      (applyBatchRetry none { accountInfo := acctW, timeline := [entA], cursor := "c1",
                              completed := false, duration := 1 } initState).ckptWrites =
        initState.ckptWrites) :=
  ⟨checkpoint_write_per_batch.2.2.1 60 noCancel _ [] initState rfl (by decide) (by decide),
   checkpoint_write_per_batch.2.2.2 none _ initState (by decide) (by decide) rfl (by decide)⟩

/-- C6 counterexample: with no resumable full checkpoint, retry resumes from
the AccountTask's own saved cursor before consulting the lightweight stored
cursor: here the task cursor is "A" and the lightweight store holds "B", and
retry starts from "A" — the claim's priority order, which puts the
lightweight stored cursor at level (2), would start from "B". -/
theorem retry_uses_task_cursor_first :
    (retryInit "A" none "B" "").cursor = "A" ∧ (retryInit "A" none "B" "").cursor ≠ "B" := by
  decide

/-- A non-resumable checkpoint sends retry to the cursor-fallback chain. -/
lemma retryInit_no_ckpt (tc l d : String) (ckpt0 : Option FetchState)
    (h : ckptResumable ckpt0 = false) :
    retryInit tc ckpt0 l d = retryFallback tc ckpt0 l d := by
  cases ckpt0 with
  | none => rfl
  | some st =>
    simp only [retryInit]
    rw [if_neg (by rw [show (st.cursor != "" && !st.completed) = false from h]; simp)]

/-- C6 (amended): retry resumes in the priority order (1) full Checkpoint
Store Session when present with a cursor and not completed (restoring items,
account info and cursor), else (2) the AccountTask's own last saved cursor,
else (3) the lightweight stored cursor, else (4) the database cursor, else
(5) a fresh start with the stale state cleared; a retry with no saved state
anywhere starts from an absent cursor and does not fail. -/
theorem retry_priority_order :
    (∀ (tc l d : String) (st : FetchState),
        ckptResumable (some st) = true →
        retryInit tc (some st) l d =
          { initState with timeline := st.timeline, cursor := st.cursor,
                           accountInfo := st.accountInfo, ckpt := some st,
                           lightCursor := l }) ∧
    (∀ (tc l d : String) (ckpt0 : Option FetchState),
        ckptResumable ckpt0 = false → tc ≠ "" →
        (retryInit tc ckpt0 l d).cursor = tc ∧ (retryInit tc ckpt0 l d).timeline = []) ∧
    (∀ (l d : String) (ckpt0 : Option FetchState),
        ckptResumable ckpt0 = false → l ≠ "" →
        (retryInit "" ckpt0 l d).cursor = l) ∧
    (∀ (d : String) (ckpt0 : Option FetchState),
        ckptResumable ckpt0 = false → d ≠ "" →
        (retryInit "" ckpt0 "" d).cursor = d) ∧
    (∀ (ckpt0 : Option FetchState),
        ckptResumable ckpt0 = false →
        (retryInit "" ckpt0 "" "").cursor = "" ∧ (retryInit "" ckpt0 "" "").ckpt = none ∧
        (retryInit "" ckpt0 "" "").lightCursor = "" ∧
        (retryInit "" ckpt0 "" "").timeline = []) := by
  refine ⟨?_, ?_, ?_, ?_, ?_⟩
  · intro tc l d st h
    simp only [retryInit]
    rw [if_pos (show (st.cursor != "" && !st.completed) = true from h)]
  · intro tc l d ckpt0 h htc
    rw [retryInit_no_ckpt tc l d ckpt0 h]
    unfold retryFallback
    rw [if_pos (show (tc != "") = true from bne_iff_ne.mpr htc)]
    exact ⟨rfl, rfl⟩
  · intro l d ckpt0 h hl
    rw [retryInit_no_ckpt "" l d ckpt0 h]
    unfold retryFallback
    rw [if_neg (by simp), if_pos (show (l != "") = true from bne_iff_ne.mpr hl)]
  · intro d ckpt0 h hd
    rw [retryInit_no_ckpt "" "" d ckpt0 h]
    unfold retryFallback
    rw [if_neg (by simp), if_neg (by simp),
      if_pos (show (d != "") = true from bne_iff_ne.mpr hd)]
  · intro ckpt0 h
    rw [retryInit_no_ckpt "" "" "" ckpt0 h]
    unfold retryFallback
    rw [if_neg (by simp), if_neg (by simp), if_neg (by simp)]
    exact ⟨rfl, rfl, rfl, rfl⟩

/-- Witness for the amended C6: a resumable checkpoint restores items and
cursor; with nothing saved anywhere, retry starts fresh from an absent
cursor. -/
theorem retry_priority_order_witness :
    retryInit "" (some { cursor := "c9", timeline := [entA], accountInfo := some acctW,
                         completed := false }) "" "" =
      { initState with timeline := [entA], cursor := "c9", accountInfo := some acctW,
                       ckpt := some { cursor := "c9", timeline := [entA],
                                      accountInfo := some acctW, completed := false },
                       lightCursor := "" } ∧
    ((retryInit "" none "" "").cursor = "" ∧ (retryInit "" none "" "").ckpt = none ∧
      (retryInit "" none "" "").lightCursor = "" ∧
      (retryInit "" none "" "").timeline = []) :=
  ⟨retry_priority_order.1 "" "" "" _ (by decide),
   retry_priority_order.2.2.2.2 none (by decide)⟩

/-- Splitting a separator-free list yields the single piece. -/
lemma splitOnChar_no_sep (sep : Char) :
    ∀ (l : List Char), (∀ c ∈ l, c ≠ sep) → splitOnChar sep l = [l] := by
  intro l
  induction l with
  | nil => intro _; rfl
  | cons c t ih =>
    intro h
    have hc : c ≠ sep := h c (List.mem_cons_self _ _)
    have ht := ih (fun x hx => h x (List.mem_cons_of_mem _ hx))
    simp only [splitOnChar]
    rw [ht, if_neg hc]

/-- C9 counterexample: the original diagnostic is not preserved — from a
two-line diagnostic only the line containing "error:" survives into the
returned message, so the returned message does not contain the original
diagnostic text. -/
theorem error_line_drops_other_lines :
    parseExtractorError "warning: foo\nerror: bar" "user" = "error: bar" ∧
    containsSub (parseExtractorError "warning: foo\nerror: bar" "user")
      "warning: foo\nerror: bar" = false := by
  decide

/-- C9 (amended): the classification appends a hint chosen by substring
inspection (`errorHint`) to the error line it extracts from the diagnostic,
and it preserves that line unmodified whenever the diagnostic is a single
already-trimmed line of at most 300 characters; longer or multi-line or
padded diagnostics are reduced to the selected line (trimmed, truncated at
300 characters with an ellipsis). -/
theorem error_classification_preserves_line (output username : String)
    (hnl : ∀ c ∈ output.data, c ≠ '\n')
    (htrim : goTrim output = output)
    (hlen : output.length ≤ 300) :
    parseExtractorError output username = output ++ errorHint output username := by
  have hsplit : splitOnChar '\n' output.data = [output.data] :=
    splitOnChar_no_sep '\n' output.data hnl
  have hline : findErrorLine output = output := by
    have hmk : String.mk output.data = output := rfl
    by_cases hp : (containsSub (lowerStr output) "error:" ||
        containsSub (lowerStr output) "exception") = true
    · have hfind : List.find? (fun l => containsSub (lowerStr l) "error:" ||
          containsSub (lowerStr l) "exception") [output] = some output := by
        simp only [List.find?, hp]
      simp only [findErrorLine, hsplit, List.map, hmk, hfind, htrim]
      by_cases hz : output = "" <;> simp [hz]
    · have hp' : (containsSub (lowerStr output) "error:" ||
          containsSub (lowerStr output) "exception") = false := by
        simpa using hp
      have hfind : List.find? (fun l => containsSub (lowerStr l) "error:" ||
          containsSub (lowerStr l) "exception") [output] = none := by
        simp only [List.find?, hp']
      simp only [findErrorLine, hsplit, List.map, hmk, hfind]
      simpa using htrim
  simp only [parseExtractorError, hline]
  rw [if_neg (by omega : ¬ output.length > 300)]

/-- Witness for the amended C9: a single-line 401 diagnostic is preserved
verbatim, and the chosen hint is the auth-token hint. -/
theorem error_classification_preserves_line_witness :
    parseExtractorError "ERROR: 401 Unauthorized" "bob" =
      "ERROR: 401 Unauthorized" ++ errorHint "ERROR: 401 Unauthorized" "bob" ∧
    errorHint "ERROR: 401 Unauthorized" "bob" =
      " [Hint: Auth token may be invalid or expired]" :=
  ⟨error_classification_preserves_line "ERROR: 401 Unauthorized" "bob"
      (by decide) (by decide) (by decide),
   by decide⟩

@[simp] lemma netDepth_nil : netDepth [] = 0 := rfl

/-- Folding the brace step from `d` shifts the fold from `0` by `d`. -/
lemma foldl_braceStep_shift :
    ∀ (xs : List Char) (d : Int), xs.foldl braceStep d = d + xs.foldl braceStep 0 := by
  intro xs
  induction xs with
  | nil => intro d; simp
  | cons c t ih =>
    intro d
    show List.foldl braceStep (braceStep d c) t = d + List.foldl braceStep (braceStep 0 c) t
    rw [ih (braceStep d c), ih (braceStep 0 c)]
    have hb : braceStep d c = d + braceStep 0 c := by
      unfold braceStep
      split_ifs <;> omega
    omega

lemma netDepth_cons (c : Char) (xs : List Char) :
    netDepth (c :: xs) = braceStep 0 c + netDepth xs := by
  unfold netDepth
  show List.foldl braceStep (braceStep 0 c) xs = _
  rw [foldl_braceStep_shift]

/-- Soundness of the brace scan: a successful scan started at depth `d > 0`
consumes a chunk `u` whose net depth returns the running depth exactly to
zero at its final character and stays positive before that. -/
lemma braceScan_some :
    ∀ (l : List Char) (depth : Int) (acc r : List Char),
      0 < depth →
      braceScan depth acc l = some r →
      ∃ u v, l = u ++ v ∧ r = acc ++ u ∧ depth + netDepth u = 0 ∧
        ∀ p q, u = p ++ q → q ≠ [] → 0 < depth + netDepth p := by
  intro l
  induction l with
  | nil =>
    intro depth acc r _ h
    exact absurd h (by simp [braceScan])
  | cons c t ih =>
    intro depth acc r hd h
    simp only [braceScan] at h
    by_cases h1 : c = '\x7b'
    · rw [if_pos h1] at h
      obtain ⟨u', v, htv, hr, hnd, hpre⟩ := ih (depth + 1) (acc ++ [c]) r (by omega) h
      have hbc : braceStep 0 c = 1 := by simp [braceStep, h1]
      refine ⟨c :: u', v, by rw [htv, List.cons_append], by rw [hr]; simp, ?_, ?_⟩
      · rw [netDepth_cons, hbc]
        omega
      · intro p q hpq hq
        cases p with
        | nil => simpa using hd
        | cons a p' =>
          rw [List.cons_append] at hpq
          injection hpq with ha hu
          subst ha
          rw [netDepth_cons, hbc]
          have := hpre p' q hu hq
          omega
    · rw [if_neg h1] at h
      by_cases h2 : c = '\x7d'
      · rw [if_pos h2] at h
        have hbc : braceStep 0 c = -1 := by simp [braceStep, h1, h2]
        by_cases h3 : depth = 1
        · rw [if_pos h3] at h
          injection h with hr
          refine ⟨[c], t, rfl, hr.symm, ?_, ?_⟩
          · rw [netDepth_cons, hbc, netDepth_nil]
            omega
          · intro p q hpq hq
            cases p with
            | nil => simpa using hd
            | cons a p' =>
              rw [List.cons_append] at hpq
              injection hpq with ha hu
              have hq' : q = [] := (List.append_eq_nil.mp hu.symm).2
              exact absurd hq' hq
        · rw [if_neg h3] at h
          obtain ⟨u', v, htv, hr, hnd, hpre⟩ := ih (depth - 1) (acc ++ [c]) r (by omega) h
          refine ⟨c :: u', v, by rw [htv, List.cons_append], by rw [hr]; simp, ?_, ?_⟩
          · rw [netDepth_cons, hbc]
            omega
          · intro p q hpq hq
            cases p with
            | nil => simpa using hd
            | cons a p' =>
              rw [List.cons_append] at hpq
              injection hpq with ha hu
              subst ha
              rw [netDepth_cons, hbc]
              have := hpre p' q hu hq
              omega
      · rw [if_neg h2] at h
        have hbc : braceStep 0 c = 0 := by simp [braceStep, h1, h2]
        obtain ⟨u', v, htv, hr, hnd, hpre⟩ := ih depth (acc ++ [c]) r hd h
        refine ⟨c :: u', v, by rw [htv, List.cons_append], by rw [hr]; simp, ?_, ?_⟩
        · rw [netDepth_cons, hbc]
          omega
        · intro p q hpq hq
          cases p with
          | nil => simpa using hd
          | cons a p' =>
            rw [List.cons_append] at hpq
            injection hpq with ha hu
            subst ha
            rw [netDepth_cons, hbc]
            have := hpre p' q hu hq
            omega

/-- The head of a nonempty `dropWhile` residue fails the predicate. -/
lemma dropWhile_head_not (p : Char → Bool) :
    ∀ (l : List Char) (c : Char) (t : List Char), l.dropWhile p = c :: t → p c = false := by
  intro l
  induction l with
  | nil => intro c t h; simp at h
  | cons a l ih =>
    intro c t h
    rw [List.dropWhile_cons] at h
    by_cases ha : p a = true
    · rw [if_pos ha] at h
      exact ih c t h
    · rw [if_neg ha] at h
      injection h with h1 _
      rw [← h1]
      revert ha
      cases p a <;> simp

/-- C10: when the extractor subprocess exits successfully but its output
holds no balanced top-level JSON object, `ExtractTimeline` returns an error
and never a response — `empty_response` exactly when the output trims to
empty, `parse_error` otherwise; an output without an opening brace extracts
nothing; and whenever `extractJSON` returns a nonempty string it is exactly
the substring from the first opening brace through its matching closing
brace, which then proceeds to JSON parsing. -/
theorem extractor_output_errors :
    (∀ output : String, extractJSON output = "" →
        handleExtractorOutput output =
          Except.error (if goTrim output = "" then ExtractError.emptyResponse
                        else ExtractError.parseError)) ∧
    (∀ output : String, (∀ c ∈ output.data, c ≠ '\x7b') → extractJSON output = "") ∧
    (∀ output : String, extractJSON output ≠ "" →
        isMatchingBraceSeg output (extractJSON output) ∧
        handleExtractorOutput output = Except.ok (extractJSON output)) := by
  refine ⟨?_, ?_, ?_⟩
  · intro output h
    by_cases ht : goTrim output = "" <;> simp [handleExtractorOutput, h, ht]
  · intro output h
    unfold extractJSON
    have hdrop : output.data.dropWhile (fun c => c ≠ '\x7b') = [] := by
      rw [List.dropWhile_eq_nil_iff]
      intro x hx
      exact decide_eq_true (h x hx)
    rw [hdrop]
    rfl
  · intro output h
    have hok : handleExtractorOutput output = Except.ok (extractJSON output) := by
      unfold handleExtractorOutput
      rw [if_neg h]
    refine ⟨?_, hok⟩
    have hsplit := (List.takeWhile_append_dropWhile
      (p := fun c => decide (c ≠ '\x7b')) (l := output.data)).symm
    unfold extractJSON at h
    cases hrest : output.data.dropWhile (fun c => c ≠ '\x7b') with
    | nil =>
      rw [hrest] at h
      simp [braceScan] at h
    | cons c t =>
      have hc : (fun c => decide (c ≠ '\x7b')) c = false :=
        dropWhile_head_not _ output.data c t hrest
      have hc7 : c = '\x7b' := by simpa using hc
      cases hscan : braceScan 0 [] (c :: t) with
      | none =>
        rw [hrest, hscan] at h
        exact absurd rfl h
      | some r =>
        have hext : extractJSON output = String.mk r := by
          unfold extractJSON
          rw [hrest, hscan]
        have hstep : braceScan 1 [c] t = some r := by
          have := hscan
          simp only [braceScan, if_pos hc7] at this
          simpa using this
        obtain ⟨u, v, htv, hr, hnd, hpre⟩ := braceScan_some t 1 [c] r (by omega) hstep
        have hrdata : (String.mk r).data = c :: u := by
          show r = c :: u
          rw [hr]
          rfl
        have hbc : braceStep 0 c = 1 := by simp [braceStep, hc7]
        rw [hext]
        refine ⟨output.data.takeWhile (fun c => c ≠ '\x7b'), v, ?_, ?_, ?_, ?_, ?_⟩
        · rw [hrdata]
          rw [hrest, htv] at hsplit
          simpa using hsplit
        · intro x hx
          have h1 := List.mem_takeWhile_imp hx
          simpa using h1
        · rw [hrdata, hc7]
          rfl
        · rw [hrdata, netDepth_cons, hbc]
          omega
        · intro p q hpq hp hq
          rw [hrdata] at hpq
          cases p with
          | nil => exact absurd rfl hp
          | cons a p' =>
            rw [List.cons_append] at hpq
            injection hpq with ha hu
            subst ha
            rw [netDepth_cons, hbc]
            have := hpre p' q hu hq
            omega

/-- Witness for C10: whitespace-only output yields `empty_response`,
brace-free output yields `parse_error`, and an output with surrounding noise
extracts exactly the balanced object, which is accepted. -/
theorem extractor_output_errors_witness :
    handleExtractorOutput " \t " = Except.error ExtractError.emptyResponse ∧
    handleExtractorOutput "no json produced" = Except.error ExtractError.parseError ∧
    isMatchingBraceSeg "log \x7b\"a\": \x7b\x7d\x7d tail"
      (extractJSON "log \x7b\"a\": \x7b\x7d\x7d tail") ∧
    handleExtractorOutput "log \x7b\"a\": \x7b\x7d\x7d tail" =
      Except.ok "\x7b\"a\": \x7b\x7d\x7d" := by
  refine ⟨?_, ?_, ?_, ?_⟩
  · exact (extractor_output_errors.1 " \t " (by rfl)).trans (by rfl)
  · exact (extractor_output_errors.1 "no json produced" (by rfl)).trans (by rfl)
  · exact (extractor_output_errors.2.2 "log \x7b\"a\": \x7b\x7d\x7d tail" (by decide)).1
  · exact ((extractor_output_errors.2.2 "log \x7b\"a\": \x7b\x7d\x7d tail"
      (by decide)).2).trans (by rfl)

end TwitterFetch
